import Mathlib

/-!
Verification of the `CountFrequencyEncoder` (feature_engine, encoding/count_frequency.py).

The encoder learns, per variable, a mapping from each observed category to a
numeric statistic (observation count, or relative frequency), then replaces
categories by those numbers, and can reverse the substitution.

Embedding conventions:
* a column is a list of cells, `none` standing for a missing value (NaN);
* a dataframe is a list of named columns;
* pandas `value_counts` is embedded as the list of distinct non-missing values
  paired with their multiplicities (`value_counts` drops NaN by default);
* Python's `defaultdict(lambda: 0)` (built when `errors == "encode"`) is a
  tagged map `EncMap` whose `default` field is `some 0`; a plain dict has
  `default = none`;
* statistics are rationals `ℚ` (exact arithmetic in place of floats);
* raising an exception is returning `.error` in `Except Err`.
-/

/-- The error taxonomy of the spec (Python raises `ValueError` in each case). -/
inductive Err : Type where
  | configError : Err
  | consistencyError : Err
  | schemaError : Err
  | unseenCategoryError : List String → Err
  | stateError : Err
deriving DecidableEq, Repr

/-- A column of a dataframe: cells are values of type `α`, `none` is NaN. -/
abbrev Column (α : Type) := List (Option α)

/-- A dataframe: named columns. -/
abbrev DataFrame (α : Type) := List (String × Column α)

/-- A transformed cell holds either an untouched value (`Sum.inl`, columns that
were not encoded) or a numeric statistic (`Sum.inr`). -/
abbrev TColumn (α : Type) := List (Option (α ⊕ ℚ))

/-- A transformed dataframe. -/
abbrev TDataFrame (α : Type) := List (String × TColumn α)

variable {α : Type} [DecidableEq α]

/-- Association-list lookup (Python dict lookup, first binding wins). -/
def alookup {κ β : Type} [DecidableEq κ] : List (κ × β) → κ → Option β
  | [], _ => none
  | (k, b) :: rest, v => if k = v then some b else alookup rest v

/-- The non-missing cells of a column, in order. -/
def nonMissing (xs : Column α) : List α := xs.filterMap id

/-- Number of occurrences of `v` in a list. -/
def countIn : List α → α → Nat
  | [], _ => 0
  | x :: rest, v => (if x = v then 1 else 0) + countIn rest v

/-- The distinct values of a list. -/
def distinctVals : List α → List α
  | [] => []
  | x :: rest =>
      let d := distinctVals rest
      if x ∈ d then d else x :: d

/-- pandas `Series.value_counts()`: multiplicity of each distinct non-missing
value (NaN is dropped). -/
def value_counts (xs : Column α) : List (α × Nat) :=
  (distinctVals (nonMissing xs)).map (fun v => (v, countIn (nonMissing xs) v))

/-- pandas `Series.value_counts(normalize=True)`: each multiplicity divided by
the number of non-missing cells (`mkRat n d` is the rational `n / d`). -/
def value_counts_normalize (xs : Column α) : List (α × ℚ) :=
  (distinctVals (nonMissing xs)).map
    (fun v => (v, mkRat (countIn (nonMissing xs) v) (nonMissing xs).length))

/-- A per-variable encoding map.  `entries` are the learned category→statistic
pairs; `default`, when present, is returned on a lookup miss (Python's
`defaultdict` semantics). -/
structure EncMap (α : Type) where
  entries : List (α × ℚ)
  default : Option ℚ
deriving DecidableEq, Repr

/-- Map lookup: the stored binding if the key is present, else the default. -/
def EncMap.find (m : EncMap α) (v : α) : Option ℚ :=
  match alookup m.entries v with
  | some s => some s
  | none => m.default

/-- `dct_init` of `fit`: `defaultdict(lambda: 0) if self.errors == "encode"
else {}`, reduced to the default value it carries. -/
def dct_init (errors : String) : Option ℚ :=
  if errors = "encode" then some 0 else none

/-- The Fitted State produced by `fit`. -/
structure FittedState (α : Type) where
  variables_ : List String
  encoder_dict_ : List (String × EncMap α)
  feature_names_in_ : List String
  n_features_in_ : Nat
deriving DecidableEq, Repr

/-- The encoder: configuration fields fixed at construction, plus the optional
Fitted State (`none` before a successful `fit`). -/
structure CountFrequencyEncoder (α : Type) where
  encoding_method : String
  «variables» : Option (List String)
  ignore_format : Bool
  errors : String
  fitted : Option (FittedState α)
deriving DecidableEq, Repr

/-- `check_parameter_errors` (encoding/_helper_functions.py): raises unless
`errors` is one of the permitted values. -/
def check_parameter_errors (errors : String) (allowed : List String) : Except Err Unit :=
  if errors ∈ allowed then .ok () else .error .configError

/-- `CountFrequencyEncoder.__init__`: validates `encoding_method` against
`["count", "frequency"]`, then `errors` via `check_parameter_errors`; only a
valid configuration yields an encoder, unfitted. -/
def CountFrequencyEncoder.init (α : Type) [DecidableEq α] (encoding_method : String)
    («variables» : Option (List String)) (ignore_format : Bool) (errors : String) :
    Except Err (CountFrequencyEncoder α) :=
  if encoding_method ∉ ["count", "frequency"] then .error .configError
  else
    match check_parameter_errors errors ["ignore", "raise", "encode"] with
    | .error e => .error e
    | .ok _ => .ok ⟨encoding_method, «variables», ignore_format, errors, none⟩

/-- The column named `v`, if present. -/
def getCol (X : DataFrame α) (v : String) : Option (Column α) := alookup X v

/-- The column named `v`, defaulting to the empty column. -/
def getColD (X : DataFrame α) (v : String) : Column α := (getCol X v).getD []

/-- Modelled from the spec: the Variable Selector collaborator (`_fit` of the
base encoder mixin, not under `src/`): the explicit variable list when given,
else every column of the dataset; an empty resolved list is an error. -/
def selectVariables (X : DataFrame α) (explicit : Option (List String)) :
    Except Err (List String) :=
  let vs := match explicit with
    | some l => l
    | none => X.map Prod.fst
  if vs = [] then .error .configError else .ok vs

/-- The learned dictionary: for each selected variable, `value_counts` of its
column under `"count"`, `value_counts(normalize=True)` under `"frequency"`
(any other method learns nothing, as in the source's if/elif), each map
carrying `dct_init` as its lookup default. -/
def fitDict (encoding_method errors : String) (X : DataFrame α) (vars : List String) :
    List (String × EncMap α) :=
  vars.filterMap (fun v =>
    if encoding_method = "count" then
      some (v, ⟨(value_counts (getColD X v)).map (fun p => (p.1, (p.2 : ℚ))), dct_init errors⟩)
    else if encoding_method = "frequency" then
      some (v, ⟨value_counts_normalize (getColD X v), dct_init errors⟩)
    else none)

/-- Is some learned statistic exactly `0`? -/
def hasZeroStat (d : List (String × EncMap α)) : Bool :=
  d.any (fun p => p.2.entries.any (fun e => decide (e.2 = 0)))

/-- Modelled from the spec: `_check_encoding_dictionary` (Map Consistency
Checker of the base encoder mixin, not under `src/`): under the
SUBSTITUTE_ZERO policy (`errors = "encode"`) it scans every learned statistic
and errors if any is exactly `0`; under the other policies it has no effect. -/
def check_encoding_dictionary (errors : String) (d : List (String × EncMap α)) :
    Except Err Unit :=
  if errors = "encode" ∧ hasZeroStat d = true then .error .consistencyError else .ok ()

/-- `CountFrequencyEncoder.fit`: select the variables, learn one encoding map
per variable, run the consistency check, and return the encoder carrying the
new Fitted State. -/
def CountFrequencyEncoder.fit (enc : CountFrequencyEncoder α) (X : DataFrame α) :
    Except Err (CountFrequencyEncoder α) :=
  match selectVariables X enc.«variables» with
  | .error e => .error e
  | .ok vars =>
    if vars.all (fun v => (getCol X v).isSome) then
      match check_encoding_dictionary enc.errors (fitDict enc.encoding_method enc.errors X vars) with
      | .error e => .error e
      | .ok _ => .ok { enc with
          fitted := some ⟨vars, fitDict enc.encoding_method enc.errors X vars,
                          X.map Prod.fst, X.length⟩ }
    else .error .schemaError

/-- Does the column contain a non-missing value absent from the learned map's
entries (an unseen category)? -/
def colHasUnseen (m : EncMap α) (xs : Column α) : Bool :=
  xs.any (fun cell =>
    match cell with
    | some a => (alookup m.entries a).isNone
    | none => false)

/-- The encoded variables whose column in `X` carries an unseen category. -/
def offendingVars (st : FittedState α) (X : DataFrame α) : List String :=
  st.variables_.filter (fun v =>
    match getCol X v, alookup st.encoder_dict_ v with
    | some xs, some m => colHasUnseen m xs
    | _, _ => false)

/-- Replace each cell by its learned statistic (`EncMap.find`); a lookup miss
without default, like a missing cell, yields a missing cell. -/
def transformCol (m : EncMap α) (xs : Column α) : TColumn α :=
  xs.map (fun cell => cell.bind (fun a => (m.find a).map Sum.inr))

/-- Modelled from the spec: `transform` (base encoder mixin, not under
`src/`): requires a Fitted State, requires the input's columns to match the
recorded schema, and under the RAISE policy fails, naming the offending
variables, when any encoded column carries an unseen category; otherwise each
encoded column is substituted cell by cell and every other column passes
through. -/
def CountFrequencyEncoder.transform (enc : CountFrequencyEncoder α) (X : DataFrame α) :
    Except Err (TDataFrame α) :=
  match enc.fitted with
  | none => .error .stateError
  | some st =>
    if X.map Prod.fst ≠ st.feature_names_in_ then .error .schemaError
    else if enc.errors = "raise" ∧ offendingVars st X ≠ [] then
      .error (.unseenCategoryError (offendingVars st X))
    else .ok (X.map (fun p =>
      match alookup st.encoder_dict_ p.1 with
      | some m => (p.1, transformCol m p.2)
      | none => (p.1, p.2.map (fun cell => cell.map Sum.inl))))

/-- Reverse lookup: the first category whose learned statistic is `q`. -/
def revLookup : List (α × ℚ) → ℚ → Option α
  | [], _ => none
  | (c, s) :: rest, q => if s = q then some c else revLookup rest q

/-- Map statistics back to categories; a value with no reverse binding, like a
missing cell, passes through unchanged. -/
def invCol (m : EncMap α) (xs : TColumn α) : TColumn α :=
  xs.map (fun cell => cell.map (fun x =>
    match x with
    | Sum.inl a => Sum.inl a
    | Sum.inr q =>
      match revLookup m.entries q with
      | some c => Sum.inl c
      | none => Sum.inr q))

/-- Modelled from the spec: `inverse_transform` (base encoder mixin, not under
`src/`): requires a Fitted State and a matching schema, then replaces each
numeric cell of an encoded column by its category through the reverse mapping;
unmatched values pass through, and no value mismatch is an error. -/
def CountFrequencyEncoder.inverse_transform (enc : CountFrequencyEncoder α)
    (X : TDataFrame α) : Except Err (TDataFrame α) :=
  match enc.fitted with
  | none => .error .stateError
  | some st =>
    if X.map Prod.fst ≠ st.feature_names_in_ then .error .schemaError
    else .ok (X.map (fun p =>
      match alookup st.encoder_dict_ p.1 with
      | some m => (p.1, invCol m p.2)
      | none => p))

/-! ### List-level helper lemmas -/

theorem mem_distinctVals {l : List α} {v : α} : v ∈ distinctVals l ↔ v ∈ l := by
  induction l with
  | nil => simp [distinctVals]
  | cons x rest ih =>
    simp only [distinctVals]
    by_cases hx : x ∈ distinctVals rest
    · simp only [if_pos hx, List.mem_cons]
      constructor
      · intro h; exact Or.inr (ih.mp h)
      · rintro (rfl | h)
        · exact hx
        · exact ih.mpr h
    · simp only [if_neg hx, List.mem_cons, ih]

theorem nodup_distinctVals (l : List α) : (distinctVals l).Nodup := by
  induction l with
  | nil => simp [distinctVals]
  | cons x rest ih =>
    simp only [distinctVals]
    by_cases hx : x ∈ distinctVals rest
    · simpa [if_pos hx] using ih
    · simpa [if_neg hx, List.nodup_cons] using ⟨hx, ih⟩

theorem countIn_eq_zero {l : List α} {v : α} (h : v ∉ l) : countIn l v = 0 := by
  induction l with
  | nil => rfl
  | cons x rest ih =>
    have hx : ¬ x = v := fun hxv => h (hxv ▸ List.mem_cons_self x rest)
    have hr : v ∉ rest := fun hv => h (List.mem_cons_of_mem x hv)
    simp [countIn, hx, ih hr]

theorem countIn_pos {l : List α} {v : α} (h : v ∈ l) : 1 ≤ countIn l v := by
  induction l with
  | nil => cases h
  | cons x rest ih =>
    rcases List.mem_cons.mp h with rfl | hv
    · simp [countIn]
    · simp only [countIn]
      have := ih hv
      omega

theorem countIn_le_length (l : List α) (v : α) : countIn l v ≤ l.length := by
  induction l with
  | nil => simp [countIn]
  | cons x rest ih =>
    simp only [countIn, List.length_cons]
    split <;> omega

theorem sum_map_add_nat {β : Type} (d : List β) (f g : β → ℕ) :
    (d.map (fun v => f v + g v)).sum = (d.map f).sum + (d.map g).sum := by
  induction d with
  | nil => rfl
  | cons x rest ih => simp [ih]; omega

theorem sum_map_ite_of_not_mem {d : List α} {x : α} (h : x ∉ d) :
    (d.map (fun v => if x = v then (1 : ℕ) else 0)).sum = 0 := by
  induction d with
  | nil => rfl
  | cons y rest ih =>
    have hxy : ¬ x = y := fun hx => h (hx ▸ List.mem_cons_self y rest)
    have hr : x ∉ rest := fun hv => h (List.mem_cons_of_mem y hv)
    simp [hxy, ih hr]

theorem sum_map_ite_of_nodup {d : List α} {x : α} (hd : d.Nodup) (h : x ∈ d) :
    (d.map (fun v => if x = v then (1 : ℕ) else 0)).sum = 1 := by
  induction d with
  | nil => cases h
  | cons y rest ih =>
    rcases List.nodup_cons.mp hd with ⟨hy, hrest⟩
    rcases List.mem_cons.mp h with rfl | hv
    · simp [sum_map_ite_of_not_mem hy]
    · have hxy : ¬ x = y := fun hx => hy (hx ▸ hv)
      simp [hxy, ih hrest hv]

theorem sum_countIn (l : List α) : ((distinctVals l).map (countIn l)).sum = l.length := by
  induction l with
  | nil => rfl
  | cons x rest ih =>
    have hcnt : countIn (x :: rest) = fun v => (if x = v then 1 else 0) + countIn rest v := by
      funext v; simp [countIn]
    have h2 : ((distinctVals rest).map (fun v => countIn rest v)).sum = rest.length := ih
    simp only [distinctVals]
    by_cases hx : x ∈ distinctVals rest
    · rw [if_pos hx, hcnt, sum_map_add_nat,
        sum_map_ite_of_nodup (nodup_distinctVals rest) hx, h2, List.length_cons]
      omega
    · have hxrest : x ∉ rest := fun hv => hx (mem_distinctVals.mpr hv)
      rw [if_neg hx, hcnt, List.map_cons, List.sum_cons, sum_map_add_nat,
        sum_map_ite_of_not_mem hx, h2]
      show (if x = x then 1 else 0) + countIn rest x + (0 + rest.length) = rest.length + 1
      rw [if_pos rfl, countIn_eq_zero hxrest]
      omega

theorem sum_map_ratCast {β : Type} (d : List β) (f : β → ℕ) :
    (d.map (fun v => ((f v : ℕ) : ℚ))).sum = (((d.map f).sum : ℕ) : ℚ) := by
  induction d with
  | nil => simp
  | cons x rest ih => simp [ih]

theorem sum_map_div {β : Type} (d : List β) (f : β → ℚ) (c : ℚ) :
    (d.map (fun v => f v / c)).sum = (d.map f).sum / c := by
  induction d with
  | nil => simp
  | cons x rest ih => simp [ih, add_div]

theorem alookup_graph {β : Type} (f : α → β) {l : List α} {c : α} (h : c ∈ l) :
    alookup (l.map (fun v => (v, f v))) c = some (f c) := by
  induction l with
  | nil => cases h
  | cons x rest ih =>
    by_cases hx : x = c
    · subst hx; simp [alookup]
    · rcases List.mem_cons.mp h with rfl | hv
      · exact absurd rfl hx
      · simp [alookup, hx, ih hv]

theorem alookup_mem {β : Type} {l : List (α × β)} {k : α} {b : β}
    (h : alookup l k = some b) : (k, b) ∈ l := by
  induction l with
  | nil => cases h
  | cons p rest ih =>
    rcases p with ⟨k₀, b₀⟩
    simp only [alookup] at h
    split at h
    · rename_i hk
      subst hk
      injection h with hb
      subst hb
      exact List.mem_cons_self _ _
    · exact List.mem_cons_of_mem _ (ih h)

theorem alookup_isSome_of_mem {β : Type} {l : List (α × β)} {k : α} {b : β}
    (h : (k, b) ∈ l) : ∃ b', alookup l k = some b' := by
  induction l with
  | nil => cases h
  | cons p rest ih =>
    rcases p with ⟨k₀, b₀⟩
    by_cases hk : k₀ = k
    · exact ⟨b₀, by simp [alookup, hk]⟩
    · rcases List.mem_cons.mp h with heq | hv
      · cases heq; exact absurd rfl hk
      · simpa [alookup, hk] using ih hv

theorem revLookup_mem {l : List (α × ℚ)} {q : ℚ} {c : α}
    (h : revLookup l q = some c) : (c, q) ∈ l := by
  induction l with
  | nil => cases h
  | cons p rest ih =>
    rcases p with ⟨c₀, s₀⟩
    simp only [revLookup] at h
    split at h
    · rename_i hs
      subst hs
      injection h with hc
      subst hc
      exact List.mem_cons_self _ _
    · exact List.mem_cons_of_mem _ (ih h)

theorem revLookup_isSome_of_mem {l : List (α × ℚ)} {c : α} {q : ℚ}
    (h : (c, q) ∈ l) : ∃ c', revLookup l q = some c' := by
  induction l with
  | nil => cases h
  | cons p rest ih =>
    rcases p with ⟨c₀, s₀⟩
    by_cases hs : s₀ = q
    · exact ⟨c₀, by simp [revLookup, hs]⟩
    · rcases List.mem_cons.mp h with heq | hv
      · cases heq; exact absurd rfl hs
      · simpa [revLookup, hs] using ih hv

/-! ### Lemmas about the learned dictionary and `fit` -/

theorem mkRat_cast_div (n d : ℕ) : mkRat (n : ℤ) d = ((n : ℕ) : ℚ) / ((d : ℕ) : ℚ) := by
  rw [Rat.mkRat_eq_divInt, Rat.divInt_eq_div]
  norm_num

theorem value_counts_normalize_eq (xs : Column α) :
    value_counts_normalize xs =
      (distinctVals (nonMissing xs)).map
        (fun w => (w, ((countIn (nonMissing xs) w : ℕ) : ℚ) /
          (((nonMissing xs).length : ℕ) : ℚ))) := by
  rw [value_counts_normalize]
  exact congrArg (fun f => List.map f _) (funext (fun w => by rw [mkRat_cast_div]))

theorem fitDict_mem {em er : String} {X : DataFrame α} {vars : List String}
    {v : String} {m : EncMap α} (h : (v, m) ∈ fitDict em er X vars) :
    v ∈ vars ∧ m.default = dct_init er ∧
      ((em = "count" ∧
          m.entries = (value_counts (getColD X v)).map (fun p => (p.1, ((p.2 : ℕ) : ℚ)))) ∨
       (em = "frequency" ∧ m.entries = value_counts_normalize (getColD X v))) := by
  rcases List.mem_filterMap.mp h with ⟨a, ha, hfa⟩
  by_cases hc : em = "count"
  · rw [if_pos hc] at hfa
    injection hfa with h1
    injection h1 with h2 h3
    subst h2
    exact ⟨ha, by rw [← h3], Or.inl ⟨hc, by rw [← h3]⟩⟩
  · rw [if_neg hc] at hfa
    by_cases hf : em = "frequency"
    · rw [if_pos hf] at hfa
      injection hfa with h1
      injection h1 with h2 h3
      subst h2
      exact ⟨ha, by rw [← h3], Or.inr ⟨hf, by rw [← h3]⟩⟩
    · rw [if_neg hf] at hfa
      exact Option.noConfusion hfa

theorem fit_ok_elim {enc enc' : CountFrequencyEncoder α} {X : DataFrame α}
    (h : enc.fit X = .ok enc') :
    ∃ vars, selectVariables X enc.«variables» = .ok vars ∧
      enc' = { enc with
        fitted := some ⟨vars, fitDict enc.encoding_method enc.errors X vars,
                        X.map Prod.fst, X.length⟩ } := by
  unfold CountFrequencyEncoder.fit at h
  split at h
  · exact Except.noConfusion h
  · rename_i vars hsel
    split at h
    · split at h
      · exact Except.noConfusion h
      · injection h with h1
        exact ⟨vars, hsel, h1.symm⟩
    · exact Except.noConfusion h

theorem fitDict_stat_ne_zero {em er : String} {X : DataFrame α} {vars : List String}
    {v : String} {m : EncMap α} (hm : (v, m) ∈ fitDict em er X vars)
    {e : α × ℚ} (he : e ∈ m.entries) : e.2 ≠ 0 := by
  rcases fitDict_mem hm with ⟨-, -, ⟨-, hent⟩ | ⟨-, hent⟩⟩
  · rw [hent, value_counts, List.map_map] at he
    rcases List.mem_map.mp he with ⟨w, hw, hwe⟩
    rw [← hwe]
    show ((countIn (nonMissing (getColD X v)) w : ℕ) : ℚ) ≠ 0
    have h1 := countIn_pos (mem_distinctVals.mp hw)
    exact Nat.cast_ne_zero.mpr (by omega)
  · rw [hent, value_counts_normalize_eq] at he
    rcases List.mem_map.mp he with ⟨w, hw, hwe⟩
    rw [← hwe]
    show ((countIn (nonMissing (getColD X v)) w : ℕ) : ℚ) /
        (((nonMissing (getColD X v)).length : ℕ) : ℚ) ≠ 0
    have hwmem := mem_distinctVals.mp hw
    have h1 := countIn_pos hwmem
    have h2 : (nonMissing (getColD X v)).length ≠ 0 :=
      Nat.pos_iff_ne_zero.mp (List.length_pos.mpr (List.ne_nil_of_mem hwmem))
    exact div_ne_zero (Nat.cast_ne_zero.mpr (by omega)) (Nat.cast_ne_zero.mpr h2)

theorem hasZeroStat_fitDict (em er : String) (X : DataFrame α) (vars : List String) :
    hasZeroStat (fitDict em er X vars) = false := by
  rw [Bool.eq_false_iff]
  intro hz
  simp only [hasZeroStat, List.any_eq_true, decide_eq_true_eq] at hz
  rcases hz with ⟨⟨v, m⟩, hp, e, he, hz0⟩
  exact fitDict_stat_ne_zero hp he hz0

theorem check_encoding_dictionary_error_iff (er : String) (d : List (String × EncMap α)) :
    check_encoding_dictionary er d = .error Err.consistencyError ↔
      er = "encode" ∧ hasZeroStat d = true := by
  by_cases hcond : er = "encode" ∧ hasZeroStat d = true
  · rw [check_encoding_dictionary, if_pos hcond]
    exact iff_of_true rfl hcond
  · rw [check_encoding_dictionary, if_neg hcond]
    exact iff_of_false (fun h => Except.noConfusion h) hcond

theorem check_fitDict_ok (er em er' : String) (X : DataFrame α) (vars : List String) :
    check_encoding_dictionary er (fitDict em er' X vars) = .ok () := by
  rw [check_encoding_dictionary, if_neg]
  rintro ⟨-, hz⟩
  rw [hasZeroStat_fitDict] at hz
  exact Bool.false_ne_true hz

/-! ### Bridging lemmas -/

theorem count_entries_eq (xs : Column α) :
    (value_counts xs).map (fun p => (p.1, ((p.2 : ℕ) : ℚ))) =
      (distinctVals (nonMissing xs)).map
        (fun w => (w, ((countIn (nonMissing xs) w : ℕ) : ℚ))) := by
  rw [value_counts, List.map_map]
  rfl

theorem EncMap.find_of_alookup {m : EncMap α} {v : α} {s : ℚ}
    (h : alookup m.entries v = some s) : m.find v = some s := by
  unfold EncMap.find
  rw [h]

theorem EncMap.find_of_alookup_none {m : EncMap α} {v : α}
    (h : alookup m.entries v = none) : m.find v = m.default := by
  unfold EncMap.find
  rw [h]

theorem transform_eq_of_fitted {enc : CountFrequencyEncoder α} {st : FittedState α}
    (h : enc.fitted = some st) (X : DataFrame α) :
    enc.transform X =
      (if X.map Prod.fst ≠ st.feature_names_in_ then .error .schemaError
       else if enc.errors = "raise" ∧ offendingVars st X ≠ [] then
         .error (.unseenCategoryError (offendingVars st X))
       else .ok (X.map (fun p =>
         match alookup st.encoder_dict_ p.1 with
         | some m => (p.1, transformCol m p.2)
         | none => (p.1, p.2.map (fun cell => cell.map Sum.inl))))) := by
  unfold CountFrequencyEncoder.transform
  rw [h]

theorem inverse_transform_eq_of_fitted {enc : CountFrequencyEncoder α} {st : FittedState α}
    (h : enc.fitted = some st) (Z : TDataFrame α) :
    enc.inverse_transform Z =
      (if Z.map Prod.fst ≠ st.feature_names_in_ then .error .schemaError
       else .ok (Z.map (fun p =>
         match alookup st.encoder_dict_ p.1 with
         | some m => (p.1, invCol m p.2)
         | none => p))) := by
  unfold CountFrequencyEncoder.inverse_transform
  rw [h]

/-! ### Concrete data: the spec's running example -/

/-- The training column of the spec's concrete scenario. -/
def colourCol : Column String :=
  [some "blue", some "blue", some "blue", some "red", some "red",
   some "green", some "green", some "green", some "green", some "green"]

/-- The training dataset of the spec's concrete scenario (10 rows). -/
def trainDF : DataFrame String := [("colour", colourCol)]

/-- The transform-time dataset `[blue, yellow]` of the spec's scenario. -/
def testDF : DataFrame String := [("colour", [some "blue", some "yellow"])]

/-- A single-row transform-time dataset with only seen categories. -/
def goodDF : DataFrame String := [("colour", [some "blue"])]

/-- The count map learned from `trainDF` (no lookup default). -/
def countMap : EncMap String := ⟨[("blue", 3), ("red", 2), ("green", 5)], none⟩

/-- The frequency map learned from `trainDF` (no lookup default). -/
def freqMap : EncMap String :=
  ⟨[("blue", mkRat 3 10), ("red", mkRat 2 10), ("green", mkRat 5 10)], none⟩

/-- Fitted State of a COUNT fit on `trainDF`. -/
def stCount : FittedState String := ⟨["colour"], [("colour", countMap)], ["colour"], 1⟩

/-- Fitted State of a FREQUENCY fit on `trainDF`. -/
def stFreq : FittedState String := ⟨["colour"], [("colour", freqMap)], ["colour"], 1⟩

/-- A freshly constructed COUNT/IGNORE encoder. -/
def encCount : CountFrequencyEncoder String := ⟨"count", none, false, "ignore", none⟩

/-- The COUNT/IGNORE encoder after fitting on `trainDF`. -/
def encCountFitted : CountFrequencyEncoder String :=
  ⟨"count", none, false, "ignore", some stCount⟩

/-- A freshly constructed FREQUENCY/IGNORE encoder. -/
def encFreq : CountFrequencyEncoder String := ⟨"frequency", none, false, "ignore", none⟩

/-- The FREQUENCY/IGNORE encoder after fitting on `trainDF`. -/
def encFreqFitted : CountFrequencyEncoder String :=
  ⟨"frequency", none, false, "ignore", some stFreq⟩

/-! ### The claims -/

/-- C1: with COUNT encoding, `fit` stores in `encoder_dict_`, for every fitted
variable, a per-category mapping whose value at each training category is the
number of training rows bearing that category, and the learned statistics sum
to the number of non-missing rows of that variable in the training dataset. -/
theorem c1_count_fit_counts_and_sum
    (enc enc' : CountFrequencyEncoder α) (X : DataFrame α) (st : FittedState α)
    (v : String) (m : EncMap α) (xs : Column α)
    (hmethod : enc.encoding_method = "count")
    (hfit : enc.fit X = .ok enc') (hst : enc'.fitted = some st)
    (hmem : (v, m) ∈ st.encoder_dict_) (hcol : getCol X v = some xs) :
    (∀ c ∈ nonMissing xs, m.find c = some ((countIn (nonMissing xs) c : ℕ) : ℚ)) ∧
    (m.entries.map Prod.snd).sum = (((nonMissing xs).length : ℕ) : ℚ) := by
  rcases fit_ok_elim hfit with ⟨vars, hsel, henc'⟩
  rw [henc'] at hst
  have hstv : st = ⟨vars, fitDict enc.encoding_method enc.errors X vars,
      X.map Prod.fst, X.length⟩ := (Option.some.inj hst).symm
  subst hstv
  have hxs : getColD X v = xs := by rw [getColD, hcol]; rfl
  rcases fitDict_mem hmem with ⟨hv, hdef, ⟨-, hent⟩ | ⟨hfreq, -⟩⟩
  · rw [hxs, count_entries_eq] at hent
    constructor
    · intro c hc
      have hc' : c ∈ distinctVals (nonMissing xs) := mem_distinctVals.mpr hc
      have := alookup_graph (fun w => ((countIn (nonMissing xs) w : ℕ) : ℚ)) hc'
      exact EncMap.find_of_alookup (by rw [hent]; exact this)
    · have hsnd : m.entries.map Prod.snd =
          (distinctVals (nonMissing xs)).map
            (fun w => ((countIn (nonMissing xs) w : ℕ) : ℚ)) := by
        rw [hent, List.map_map]
        rfl
      rw [hsnd, sum_map_ratCast (distinctVals (nonMissing xs)) (countIn (nonMissing xs)),
        sum_countIn]
  · rw [hmethod] at hfreq
    exact absurd hfreq (by decide)

/-- Witness for C1: the COUNT fit on the concrete 10-row training column,
evaluated at category "blue" (count 3) and summed (10 non-missing rows). -/
theorem c1_witness :
    countMap.find "blue" = some ((countIn (nonMissing colourCol) "blue" : ℕ) : ℚ) ∧
    (countMap.entries.map Prod.snd).sum = (((nonMissing colourCol).length : ℕ) : ℚ) := by
  have h := c1_count_fit_counts_and_sum encCount encCountFitted trainDF stCount
    "colour" countMap colourCol rfl (by rfl) rfl (by decide) rfl
  exact ⟨h.1 "blue" (by decide), h.2⟩

/-- C2: with FREQUENCY encoding, each learned statistic is that category's
count divided by the variable's total non-missing row count, every statistic
lies in `[0, 1]`, and the statistics of a variable sum to exactly `1` (hence
within any floating-point tolerance). -/
theorem c2_frequency_fit_stats
    (enc enc' : CountFrequencyEncoder α) (X : DataFrame α) (st : FittedState α)
    (v : String) (m : EncMap α) (xs : Column α)
    (hmethod : enc.encoding_method = "frequency")
    (hfit : enc.fit X = .ok enc') (hst : enc'.fitted = some st)
    (hmem : (v, m) ∈ st.encoder_dict_) (hcol : getCol X v = some xs)
    (hne : nonMissing xs ≠ []) :
    (∀ c ∈ nonMissing xs,
        m.find c = some (((countIn (nonMissing xs) c : ℕ) : ℚ) /
          (((nonMissing xs).length : ℕ) : ℚ))) ∧
    (∀ s ∈ m.entries.map Prod.snd, 0 ≤ s ∧ s ≤ 1) ∧
    (m.entries.map Prod.snd).sum = 1 := by
  rcases fit_ok_elim hfit with ⟨vars, hsel, henc'⟩
  rw [henc'] at hst
  have hstv : st = ⟨vars, fitDict enc.encoding_method enc.errors X vars,
      X.map Prod.fst, X.length⟩ := (Option.some.inj hst).symm
  subst hstv
  have hxs : getColD X v = xs := by rw [getColD, hcol]; rfl
  have hlen : ((nonMissing xs).length : ℚ) ≠ 0 :=
    Nat.cast_ne_zero.mpr (fun h0 => hne (List.length_eq_zero.mp h0))
  rcases fitDict_mem hmem with ⟨hv, hdef, ⟨hcnt, -⟩ | ⟨-, hent⟩⟩
  · rw [hmethod] at hcnt
    exact absurd hcnt (by decide)
  · rw [hxs, value_counts_normalize_eq] at hent
    have hsnd : m.entries.map Prod.snd =
        (distinctVals (nonMissing xs)).map
          (fun w => ((countIn (nonMissing xs) w : ℕ) : ℚ) /
            (((nonMissing xs).length : ℕ) : ℚ)) := by
      rw [hent, List.map_map]
      rfl
    refine ⟨?_, ?_, ?_⟩
    · intro c hc
      have hc' : c ∈ distinctVals (nonMissing xs) := mem_distinctVals.mpr hc
      have := alookup_graph
        (fun w => ((countIn (nonMissing xs) w : ℕ) : ℚ) /
          (((nonMissing xs).length : ℕ) : ℚ)) hc'
      exact EncMap.find_of_alookup (by rw [hent]; exact this)
    · intro s hs
      rw [hsnd] at hs
      rcases List.mem_map.mp hs with ⟨w, hw, hws⟩
      rw [← hws]
      constructor
      · exact div_nonneg (Nat.cast_nonneg _) (Nat.cast_nonneg _)
      · rw [div_le_one (lt_of_le_of_ne (Nat.cast_nonneg _) (Ne.symm hlen))]
        exact_mod_cast countIn_le_length (nonMissing xs) w
    · rw [hsnd,
        sum_map_div (distinctVals (nonMissing xs))
          (fun w => ((countIn (nonMissing xs) w : ℕ) : ℚ))
          (((nonMissing xs).length : ℕ) : ℚ),
        sum_map_ratCast (distinctVals (nonMissing xs)) (countIn (nonMissing xs)),
        sum_countIn, div_self hlen]

/-- C3: under the SUBSTITUTE_ZERO policy (`errors = "encode"`), every
per-variable map stored by `fit` carries the default value `0`, so a lookup of
any absent key yields `0` as a property of the map itself; under IGNORE and
RAISE the stored maps have no default. -/
theorem c3_substitute_zero_default
    (enc enc' : CountFrequencyEncoder α) (X : DataFrame α) (st : FittedState α)
    (v : String) (m : EncMap α)
    (hfit : enc.fit X = .ok enc') (hst : enc'.fitted = some st)
    (hmem : (v, m) ∈ st.encoder_dict_) :
    (enc.errors = "encode" → m.default = some 0 ∧
      ∀ c, alookup m.entries c = none → m.find c = some 0) ∧
    ((enc.errors = "ignore" ∨ enc.errors = "raise") → m.default = none) := by
  rcases fit_ok_elim hfit with ⟨vars, hsel, henc'⟩
  rw [henc'] at hst
  have hstv : st = ⟨vars, fitDict enc.encoding_method enc.errors X vars,
      X.map Prod.fst, X.length⟩ := (Option.some.inj hst).symm
  subst hstv
  rcases fitDict_mem hmem with ⟨-, hdef, -⟩
  constructor
  · intro he
    have hd : m.default = some 0 := by rw [hdef, dct_init, if_pos he]
    exact ⟨hd, fun c hc => by rw [EncMap.find_of_alookup_none hc, hd]⟩
  · intro he
    have hne : ¬ enc.errors = "encode" := by
      rcases he with he | he <;> rw [he] <;> decide
    rw [hdef, dct_init, if_neg hne]

/-- C4: under the SUBSTITUTE_ZERO policy the consistency check errors exactly
when some learned statistic is `0`, under the other policies it has no effect,
and any dictionary published by a successful `fit` is free of zero statistics
(in the `Except` embedding a failing check means `fit` publishes no state). -/
theorem c4_consistency_check
    (er : String) (d : List (String × EncMap α))
    (enc enc' : CountFrequencyEncoder α) (X : DataFrame α) (st : FittedState α) :
    (check_encoding_dictionary "encode" d = .error Err.consistencyError ↔
      hasZeroStat d = true) ∧
    (er ≠ "encode" → check_encoding_dictionary er d = .ok ()) ∧
    (enc.fit X = .ok enc' → enc'.fitted = some st →
      hasZeroStat st.encoder_dict_ = false) := by
  refine ⟨?_, ?_, ?_⟩
  · rw [check_encoding_dictionary_error_iff]
    simp
  · intro hne
    rw [check_encoding_dictionary, if_neg (fun hc => hne hc.1)]
  · intro hfit hst
    rcases fit_ok_elim hfit with ⟨vars, hsel, henc'⟩
    rw [henc'] at hst
    have hstv : st = ⟨vars, fitDict enc.encoding_method enc.errors X vars,
        X.map Prod.fst, X.length⟩ := (Option.some.inj hst).symm
    subst hstv
    exact hasZeroStat_fitDict _ _ _ _

/-- Witness for C2: the FREQUENCY fit on the concrete training column,
evaluated at "blue" (3/10), at the statistic 3/10 for the bounds, and summed. -/
theorem c2_witness :
    freqMap.find "blue" = some (((countIn (nonMissing colourCol) "blue" : ℕ) : ℚ) /
      (((nonMissing colourCol).length : ℕ) : ℚ)) ∧
    (0 ≤ (mkRat 3 10 : ℚ) ∧ (mkRat 3 10 : ℚ) ≤ 1) ∧
    (freqMap.entries.map Prod.snd).sum = 1 := by
  have h := c2_frequency_fit_stats encFreq encFreqFitted trainDF stFreq
    "colour" freqMap colourCol rfl (by rfl) rfl (by simp [stFreq]) rfl (by decide)
  exact ⟨h.1 "blue" (by decide), h.2.1 (mkRat 3 10) (by simp [freqMap]), h.2.2⟩

/-- The count map learned from `trainDF` under the SUBSTITUTE_ZERO policy:
same entries, but with the zero lookup default. -/
def countMapE : EncMap String := ⟨[("blue", 3), ("red", 2), ("green", 5)], some 0⟩

/-- Fitted State of a COUNT fit on `trainDF` under SUBSTITUTE_ZERO. -/
def stCountE : FittedState String := ⟨["colour"], [("colour", countMapE)], ["colour"], 1⟩

/-- A freshly constructed COUNT/SUBSTITUTE_ZERO encoder. -/
def encCountE : CountFrequencyEncoder String := ⟨"count", none, false, "encode", none⟩

/-- The COUNT/SUBSTITUTE_ZERO encoder after fitting on `trainDF`. -/
def encCountEFitted : CountFrequencyEncoder String :=
  ⟨"count", none, false, "encode", some stCountE⟩

/-- Witness for C3: the SUBSTITUTE_ZERO fit carries default `0` and maps the
unseen "yellow" to `0`; the IGNORE fit carries no default. -/
theorem c3_witness :
    (countMapE.default = some 0 ∧ countMapE.find "yellow" = some 0) ∧
    countMap.default = none := by
  have h1 := c3_substitute_zero_default encCountE encCountEFitted trainDF stCountE
    "colour" countMapE (by rfl) rfl (by decide)
  have h2 := c3_substitute_zero_default encCount encCountFitted trainDF stCount
    "colour" countMap (by rfl) rfl (by decide)
  exact ⟨⟨(h1.1 rfl).1, (h1.1 rfl).2 "yellow" (by decide)⟩, h2.2 (Or.inl rfl)⟩

/-- A dictionary holding a learned statistic equal to `0` (degenerate input
for the checker). -/
def dZero : List (String × EncMap String) := [("v", ⟨[("a", 0)], some 0⟩)]

/-- Witness for C4: the checker rejects a zero statistic under SUBSTITUTE_ZERO,
accepts it under IGNORE, and the concrete COUNT fit publishes no zero. -/
theorem c4_witness :
    check_encoding_dictionary "encode" dZero = .error Err.consistencyError ∧
    check_encoding_dictionary "ignore" dZero = .ok () ∧
    hasZeroStat stCount.encoder_dict_ = false := by
  have h := c4_consistency_check "ignore" dZero encCount encCountFitted trainDF stCount
  exact ⟨h.1.mpr (by decide), h.2.1 (by decide), h.2.2 (by rfl) rfl⟩

/-- C5: under the RAISE policy, a transform input carrying, in any encoded
variable, a category absent from that variable's learned mapping makes the
whole `transform` call fail with `UnseenCategoryError` naming the offending
variable, returning no output; the same encoder value (its Fitted State is
untouched — `transform` is a pure function of it) transforms any dataset
without unseen categories successfully. -/
theorem c5_raise_unseen
    (enc : CountFrequencyEncoder α) (st : FittedState α) (X : DataFrame α)
    (v : String) (xs : Column α) (m : EncMap α) (a : α)
    (hfitted : enc.fitted = some st) (herr : enc.errors = "raise")
    (hschema : X.map Prod.fst = st.feature_names_in_)
    (hv : v ∈ st.variables_) (hm : alookup st.encoder_dict_ v = some m)
    (hxs : getCol X v = some xs) (ha : some a ∈ xs)
    (hunseen : alookup m.entries a = none) :
    (∃ off, enc.transform X = .error (Err.unseenCategoryError off) ∧ v ∈ off) ∧
    (∀ X' : DataFrame α, X'.map Prod.fst = st.feature_names_in_ →
      offendingVars st X' = [] → ∃ Y, enc.transform X' = .ok Y) := by
  have hany : colHasUnseen m xs = true := by
    rw [colHasUnseen, List.any_eq_true]
    refine ⟨some a, ha, ?_⟩
    show (alookup m.entries a).isNone = true
    rw [hunseen]
    rfl
  have hoff : v ∈ offendingVars st X := by
    rw [offendingVars]
    refine List.mem_filter.mpr ⟨hv, ?_⟩
    show (match getCol X v, alookup st.encoder_dict_ v with
      | some xs, some m => colHasUnseen m xs
      | _, _ => false) = true
    rw [hxs, hm]
    exact hany
  have hoffne : offendingVars st X ≠ [] := fun h0 => by
    rw [h0] at hoff
    exact List.not_mem_nil v hoff
  constructor
  · refine ⟨offendingVars st X, ?_, hoff⟩
    rw [transform_eq_of_fitted hfitted X, if_neg (fun hne => hne hschema),
      if_pos ⟨herr, hoffne⟩]
  · intro X' hs' hoff'
    rw [transform_eq_of_fitted hfitted X', if_neg (fun hne => hne hs'), if_neg]
    · exact ⟨_, rfl⟩
    · rintro ⟨-, hne⟩
      exact hne hoff'

/-- The COUNT/RAISE encoder after fitting on `trainDF`. -/
def encRaiseFitted : CountFrequencyEncoder String :=
  ⟨"count", none, false, "raise", some stCount⟩

/-- Witness for C5: transforming `[blue, yellow]` under RAISE fails naming
"colour"; transforming `[blue]` with the same encoder succeeds. -/
theorem c5_witness :
    (∃ off, encRaiseFitted.transform testDF = .error (Err.unseenCategoryError off) ∧
      "colour" ∈ off) ∧
    (∃ Y, encRaiseFitted.transform goodDF = .ok Y) := by
  have h := c5_raise_unseen encRaiseFitted stCount testDF "colour"
    [some "blue", some "yellow"] countMap "yellow" rfl rfl (by rfl) (by decide)
    (by rfl) (by rfl) (by decide) (by rfl)
  exact ⟨h.1, h.2 goodDF (by rfl) (by rfl)⟩

/-! ### C6: the concrete scenario pipeline -/

/-- Construct an encoder with the given method and policy, then fit it on
`trainDF`. -/
def fitWith (em er : String) : Except Err (CountFrequencyEncoder String) :=
  match CountFrequencyEncoder.init String em none false er with
  | .ok e => e.fit trainDF
  | .error err => .error err

/-- Fit on `trainDF`, then transform `testDF` (`[blue, yellow]`). -/
def transformWith (em er : String) : Except Err (TDataFrame String) :=
  match fitWith em er with
  | .ok e => e.transform testDF
  | .error err => .error err

/-- The per-variable map learned for `v`, when fitting succeeded. -/
def learnedMap (r : Except Err (CountFrequencyEncoder String)) (v : String) :
    Option (EncMap String) :=
  match r with
  | .ok e =>
    match e.fitted with
    | some st => alookup st.encoder_dict_ v
    | none => none
  | .error _ => none

/-- Does the learned map for `v` agree, as a mapping, with `expected`: every
expected binding is found by lookup, and the key sets coincide (up to
permutation — entry order is an embedding artifact)? -/
def mapIs (r : Except Err (CountFrequencyEncoder String)) (v : String)
    (expected : List (String × ℚ)) : Bool :=
  match learnedMap r v with
  | some m =>
    expected.all (fun p => decide (m.find p.1 = some p.2)) &&
    decide (List.Perm (m.entries.map Prod.fst) (expected.map Prod.fst))
  | none => false

/-- C6: on the 10-row training column, COUNT learns `{blue:3, red:2, green:5}`
and FREQUENCY learns `{blue:0.3, red:0.2, green:0.5}` (the `mkRat` values are
the stated decimals); transforming `[blue, yellow]` yields `[3, missing]`
(COUNT) or `[0.3, missing]` (FREQUENCY) under IGNORE, fails with
`UnseenCategoryError` under RAISE, and yields `[3, 0]` / `[0.3, 0]` under
SUBSTITUTE_ZERO. -/
theorem c6_concrete_scenario :
    mapIs (fitWith "count" "ignore") "colour"
      [("blue", 3), ("red", 2), ("green", 5)] = true ∧
    mapIs (fitWith "frequency" "ignore") "colour"
      [("blue", mkRat 3 10), ("red", mkRat 2 10), ("green", mkRat 5 10)] = true ∧
    ((mkRat 3 10 : ℚ) = 3/10 ∧ (mkRat 2 10 : ℚ) = 2/10 ∧ (mkRat 5 10 : ℚ) = 5/10) ∧
    transformWith "count" "ignore" = .ok [("colour", [some (Sum.inr 3), none])] ∧
    transformWith "frequency" "ignore" =
      .ok [("colour", [some (Sum.inr (mkRat 3 10)), none])] ∧
    transformWith "count" "raise" = .error (Err.unseenCategoryError ["colour"]) ∧
    transformWith "frequency" "raise" = .error (Err.unseenCategoryError ["colour"]) ∧
    transformWith "count" "encode" =
      .ok [("colour", [some (Sum.inr 3), some (Sum.inr 0)])] ∧
    transformWith "frequency" "encode" =
      .ok [("colour", [some (Sum.inr (mkRat 3 10)), some (Sum.inr 0)])] := by
  refine ⟨by rfl, by rfl, ⟨by norm_num [Rat.mkRat_eq_divInt, Rat.divInt_eq_div],
    by norm_num [Rat.mkRat_eq_divInt, Rat.divInt_eq_div],
    by norm_num [Rat.mkRat_eq_divInt, Rat.divInt_eq_div]⟩,
    by rfl, by rfl, by rfl, by rfl, by rfl, by rfl⟩

/-- C7: for a fitted encoder whose forward mapping is injective, transforming
a training category and inverse-transforming the result restores the original
category; a transformed value with no key in the reverse mapping passes
through unchanged, and `inverse_transform` of a fitted encoder errors only on
schema mismatch, never on a value mismatch. -/
theorem c7_round_trip
    (enc enc' : CountFrequencyEncoder α) (v : String) (xs : Column α)
    (st : FittedState α) (m : EncMap α) (c : α)
    (hfit : enc.fit [(v, xs)] = .ok enc') (hst : enc'.fitted = some st)
    (hm : alookup st.encoder_dict_ v = some m)
    (hc : c ∈ nonMissing xs)
    (hinj : ∀ p ∈ m.entries, ∀ q ∈ m.entries, p.2 = q.2 → p.1 = q.1) :
    (∃ Y, enc'.transform [(v, [some c])] = .ok Y ∧
       enc'.inverse_transform Y = .ok [(v, [some (Sum.inl c)])]) ∧
    (∀ q : ℚ, revLookup m.entries q = none →
       enc'.inverse_transform [(v, [some (Sum.inr q)])] =
         .ok [(v, [some (Sum.inr q)])]) ∧
    (∀ Z : TDataFrame α, enc'.inverse_transform Z = .error Err.schemaError ∨
       ∃ Y, enc'.inverse_transform Z = .ok Y) := by
  rcases fit_ok_elim hfit with ⟨vars, hsel, henc'⟩
  have hfitted : enc'.fitted =
      some ⟨vars, fitDict enc.encoding_method enc.errors [(v, xs)] vars,
        [(v, xs)].map Prod.fst, [(v, xs)].length⟩ := by rw [henc']
  have hstv : st = ⟨vars, fitDict enc.encoding_method enc.errors [(v, xs)] vars,
      [(v, xs)].map Prod.fst, [(v, xs)].length⟩ := by
    rw [hfitted] at hst
    exact (Option.some.inj hst).symm
  have hmv : alookup (fitDict enc.encoding_method enc.errors [(v, xs)] vars) v
      = some m := by
    rw [hstv] at hm
    exact hm
  have hgc : getCol [(v, xs)] v = some xs := by simp [getCol, alookup]
  have hxs : getColD [(v, xs)] v = xs := by rw [getColD, hgc]; rfl
  have hc' : c ∈ distinctVals (nonMissing xs) := mem_distinctVals.mpr hc
  obtain ⟨f, hgraph⟩ : ∃ f : α → ℚ,
      m.entries = (distinctVals (nonMissing xs)).map (fun w => (w, f w)) := by
    rcases fitDict_mem (alookup_mem hmv) with ⟨-, -, ⟨-, hent⟩ | ⟨-, hent⟩⟩
    · exact ⟨fun w => ((countIn (nonMissing xs) w : ℕ) : ℚ),
        by rw [hent, hxs, count_entries_eq]⟩
    · exact ⟨fun w => ((countIn (nonMissing xs) w : ℕ) : ℚ) /
          (((nonMissing xs).length : ℕ) : ℚ),
        by rw [hent, hxs, value_counts_normalize_eq]⟩
  have hlk : alookup m.entries c = some (f c) := by
    rw [hgraph]
    exact alookup_graph f hc'
  have hfind : m.find c = some (f c) := EncMap.find_of_alookup hlk
  have hcf : (c, f c) ∈ m.entries := alookup_mem hlk
  have hoffe : offendingVars
      ⟨vars, fitDict enc.encoding_method enc.errors [(v, xs)] vars,
        [(v, xs)].map Prod.fst, [(v, xs)].length⟩ [(v, [some c])] = [] := by
    rw [offendingVars]
    apply List.filter_eq_nil_iff.mpr
    intro w hw
    by_cases hwv : w = v
    · subst hwv
      have h1 : getCol [(w, [some c])] w = some [some c] := by simp [getCol, alookup]
      simp [colHasUnseen, h1, hmv, hlk]
    · have hvw : ¬ v = w := fun h => hwv h.symm
      have h1 : getCol [(v, [some c])] w = none := by simp [getCol, alookup, hvw]
      simp [h1]
  have htr : enc'.transform [(v, [some c])] = .ok [(v, [some (Sum.inr (f c))])] := by
    rw [transform_eq_of_fitted hfitted, if_neg (fun hne => hne rfl), if_neg]
    · simp [transformCol, hmv, hfind]
    · rintro ⟨-, hne⟩
      exact hne hoffe
  have hrev : revLookup m.entries (f c) = some c := by
    rcases revLookup_isSome_of_mem hcf with ⟨c', hrl⟩
    have hcc : c' = c := hinj (c', f c) (revLookup_mem hrl) (c, f c) hcf rfl
    rw [hrl, hcc]
  refine ⟨⟨[(v, [some (Sum.inr (f c))])], htr, ?_⟩, ?_, ?_⟩
  · rw [inverse_transform_eq_of_fitted hfitted, if_neg (fun hne => hne rfl)]
    simp [invCol, hmv, hrev]
  · intro q hq
    rw [inverse_transform_eq_of_fitted hfitted, if_neg (fun hne => hne rfl)]
    simp [invCol, hmv, hq]
  · intro Z
    by_cases hz : Z.map Prod.fst = List.map Prod.fst [(v, xs)]
    · right
      exact ⟨_, by
        rw [inverse_transform_eq_of_fitted hfitted, if_neg (fun hne => hne hz)]⟩
    · left
      rw [inverse_transform_eq_of_fitted hfitted, if_pos hz]

/-- Witness for C7: the COUNT map `{blue:3, red:2, green:5}` is injective;
"blue" round-trips, the reverse-unmatched value `99` passes through, and an
empty frame only raises the schema error. -/
theorem c7_witness :
    (∃ Y, encCountFitted.transform [("colour", [some "blue"])] = .ok Y ∧
       encCountFitted.inverse_transform Y = .ok [("colour", [some (Sum.inl "blue")])]) ∧
    encCountFitted.inverse_transform [("colour", [some (Sum.inr 99)])] =
      .ok [("colour", [some (Sum.inr 99)])] ∧
    (encCountFitted.inverse_transform [] = .error Err.schemaError ∨
      ∃ Y, encCountFitted.inverse_transform [] = .ok Y) := by
  have h := c7_round_trip encCount encCountFitted "colour" colourCol stCount countMap
    "blue" (by rfl) rfl (by rfl) (by decide) (by decide)
  exact ⟨h.1, h.2.1 99 (by decide), h.2.2 []⟩

/-- C8: before any successful `fit`, `transform` and `inverse_transform` fail
with the state error, and construction itself publishes no Fitted State (the
`encoder_dict_` exists only after `fit`). -/
theorem c8_state_error
    (enc : CountFrequencyEncoder α) (X : DataFrame α) (Z : TDataFrame α)
    (h : enc.fitted = none) :
    enc.transform X = .error Err.stateError ∧
    enc.inverse_transform Z = .error Err.stateError ∧
    (∀ (em : String) (vs : Option (List String)) (fmt : Bool) (er : String)
       (e : CountFrequencyEncoder α),
       CountFrequencyEncoder.init α em vs fmt er = .ok e → e.fitted = none) := by
  refine ⟨?_, ?_, ?_⟩
  · unfold CountFrequencyEncoder.transform
    rw [h]
  · unfold CountFrequencyEncoder.inverse_transform
    rw [h]
  · intro em vs fmt er e hinit
    unfold CountFrequencyEncoder.init at hinit
    split at hinit
    · exact Except.noConfusion hinit
    · split at hinit
      · exact Except.noConfusion hinit
      · injection hinit with h1
        rw [← h1]

/-- Witness for C8: the freshly constructed encoder rejects both operations
with the state error, and construction leaves `fitted` empty. -/
theorem c8_witness :
    encCount.transform testDF = .error Err.stateError ∧
    encCount.inverse_transform [] = .error Err.stateError ∧
    encCount.fitted = none := by
  have h := c8_state_error encCount testDF [] rfl
  exact ⟨h.1, h.2.1, h.2.2 "count" none false "ignore" encCount (by rfl)⟩

/-- C9: construction with an `encoding_method` outside
`{"count", "frequency"}` or an `errors` policy outside
`{"ignore", "raise", "encode"}` fails with the configuration error before any
dataset is seen, producing no encoder. -/
theorem c9_config_error (em : String) (vs : Option (List String)) (fmt : Bool)
    (er : String)
    (h : em ∉ ["count", "frequency"] ∨ er ∉ ["ignore", "raise", "encode"]) :
    CountFrequencyEncoder.init α em vs fmt er = .error Err.configError := by
  unfold CountFrequencyEncoder.init
  rcases h with hm | he
  · rw [if_pos hm]
  · by_cases hm2 : em ∉ ["count", "frequency"]
    · rw [if_pos hm2]
    · have hcp : check_parameter_errors er ["ignore", "raise", "encode"] =
          .error Err.configError := by
        rw [check_parameter_errors, if_neg he]
      rw [if_neg hm2, hcp]

/-- Witness for C9: an invalid method and an invalid policy are each rejected
at construction. -/
theorem c9_witness :
    CountFrequencyEncoder.init String "bogus" none false "ignore" =
      .error Err.configError ∧
    CountFrequencyEncoder.init String "count" none false "bogus" =
      .error Err.configError :=
  ⟨c9_config_error "bogus" none false "ignore" (Or.inl (by decide)),
   c9_config_error "count" none false "bogus" (Or.inr (by decide))⟩

/-- C10: a successful `fit` returns the very encoder it was invoked on — the
same configuration record, now carrying the populated Fitted State — which is
what makes `fit(...).transform(...)` chaining work. -/
theorem c10_fit_returns_self (enc enc' : CountFrequencyEncoder α) (X : DataFrame α)
    (hfit : enc.fit X = .ok enc') :
    ∃ st : FittedState α, enc' = { enc with fitted := some st } := by
  rcases fit_ok_elim hfit with ⟨vars, hsel, henc'⟩
  exact ⟨_, henc'⟩

/-- Witness for C10: the concrete COUNT fit returns the constructed encoder
with its Fitted State filled in. -/
theorem c10_witness :
    ∃ st : FittedState String, encCountFitted = { encCount with fitted := some st } :=
  c10_fit_returns_self encCount encCountFitted trainDF (by rfl)
